import Mathlib

/-!
Verification development for a command-line contact manager (`hw1.py`).

The program stores contacts (name, list of 10-digit phone numbers, optional
birthday) in an insertion-ordered mapping keyed by name text, and answers a
fixed set of textual commands.  This file gives a shallow embedding of the
data model and operations and proves the specification claims about them.

Modelling conventions:
* Python `str` values are modelled by Lean `String` / `List Char`, restricted
  to the ASCII fragment of Python's character predicates (`str.strip`,
  `str.isdigit`, the `\d` of `strptime` patterns).
* Python `datetime.date` is modelled by a `year`/`month`/`day` triple of
  naturals together with the validity predicate enforced by the `date`
  constructor; ordinal arithmetic follows CPython's `_ymd2ord`.
* Exceptions are modelled by `Except` / explicit result-state pairs; the
  distinct exception classes and messages of the source are preserved in
  `PyErr`.
-/

/-- ASCII single-quote character as a string, used to build the
quoted error messages of the source verbatim. -/
def quoteS : String := "\x27"

/-- Whitespace recognized by Python's `str.strip()` (ASCII fragment). -/
def isSpaceC (c : Char) : Bool :=
  c = ' ' || c = '\t' || c = '\n' || c = '\x0d' || c = '\x0b' || c = '\x0c'

/-- Decimal value of an ASCII digit character, if it is one. -/
def charToDigitO (c : Char) : Option Nat :=
  if c = '0' then some 0
  else if c = '1' then some 1
  else if c = '2' then some 2
  else if c = '3' then some 3
  else if c = '4' then some 4
  else if c = '5' then some 5
  else if c = '6' then some 6
  else if c = '7' then some 7
  else if c = '8' then some 8
  else if c = '9' then some 9
  else none

/-- Test for an ASCII decimal digit (the fragment of `str.isdigit` / regex
`\d` exercised by this program). -/
def isDigitC (c : Char) : Bool := (charToDigitO c).isSome

/-- Decimal value of a digit character (`0` as a don't-care default). -/
def charToDigit (c : Char) : Nat := (charToDigitO c).getD 0

/-- Digit character of a decimal value below 10. -/
def digitChar10 (n : Nat) : Char :=
  if n = 0 then '0'
  else if n = 1 then '1'
  else if n = 2 then '2'
  else if n = 3 then '3'
  else if n = 4 then '4'
  else if n = 5 then '5'
  else if n = 6 then '6'
  else if n = 7 then '7'
  else if n = 8 then '8'
  else '9'

/-- All characters of the list are decimal digits. -/
def allDigits (l : List Char) : Bool := l.all isDigitC

/-- Numeric value of a digit string, as computed by Python's `int`. -/
def digitsVal (l : List Char) : Nat :=
  l.foldl (fun a c => 10 * a + charToDigit c) 0

/-- The list with leading whitespace removed. -/
def dropSpaces (l : List Char) : List Char := l.dropWhile isSpaceC

/-- Python's `str.strip()`: remove leading and trailing whitespace. -/
def stripList (l : List Char) : List Char :=
  ((dropSpaces l).reverse.dropWhile isSpaceC).reverse

/-- Python's `str.strip()` on `String`s. -/
def stripS (s : String) : String := ⟨stripList s.data⟩

/-- Split a character list at every `'.'` (like `re` matching the literal
dots of the `'%d.%m.%Y'` pattern); always returns at least one group. -/
def splitOnDot : List Char → List (List Char)
  | [] => [[]]
  | c :: rest =>
    if c = '.' then [] :: splitOnDot rest
    else
      match splitOnDot rest with
      | [] => [[c]]
      | g :: gs => (c :: g) :: gs

/-- Render a natural below 100 as two digits, zero-padded (`strftime` `%d`,
`%m`). -/
def pad2 (n : Nat) : List Char :=
  if n < 10 then ['0', digitChar10 n]
  else [digitChar10 (n / 10), digitChar10 (n % 10)]

/-- Render a natural below 10000 as four digits, zero-padded (`strftime`
`%Y` as documented for `datetime`). -/
def pad4 (n : Nat) : List Char :=
  [digitChar10 (n / 1000), digitChar10 (n / 100 % 10),
   digitChar10 (n / 10 % 10), digitChar10 (n % 10)]

/-- The Python exceptions raised by the program: `ValueError` (with its
message), `KeyError`, `IndexError`, and `OverflowError` (date range). -/
inductive PyErr where
  | valueError (msg : String)
  | keyError
  | indexError
  | overflowError
  deriving DecidableEq, Repr

/-- A `datetime.date` value: year, month, day. -/
structure PyDate where
  year : Nat
  month : Nat
  day : Nat
  deriving DecidableEq, Repr

/-- CPython `_is_leap`: divisible by 4 and not by 100 unless by 400. -/
def pyIsLeap (y : Nat) : Bool :=
  decide (y % 4 = 0 ∧ (¬ y % 100 = 0 ∨ y % 400 = 0))

/-- CPython `_days_in_month`. -/
def daysInMonth (y m : Nat) : Nat :=
  if m = 2 then (if pyIsLeap y then 29 else 28)
  else if m = 4 ∨ m = 6 ∨ m = 9 ∨ m = 11 then 30
  else 31

/-- Cumulative day counts before each month in a non-leap year
(CPython `_DAYS_BEFORE_MONTH`). -/
def daysBeforeMonthBase : Nat → Nat
  | 1 => 0
  | 2 => 31
  | 3 => 59
  | 4 => 90
  | 5 => 120
  | 6 => 151
  | 7 => 181
  | 8 => 212
  | 9 => 243
  | 10 => 273
  | 11 => 304
  | 12 => 334
  | _ => 0

/-- CPython `_days_before_month`: with the leap-day correction after
February. -/
def daysBeforeMonth (y m : Nat) : Nat :=
  daysBeforeMonthBase m + (if 2 < m ∧ pyIsLeap y = true then 1 else 0)

/-- CPython `_days_before_year` for year `y ≥ 1`. -/
def daysBeforeYear (y : Nat) : Nat :=
  365 * (y - 1) + (y - 1) / 4 - (y - 1) / 100 + (y - 1) / 400

/-- CPython `_ymd2ord` / `date.toordinal`: day 1 is 0001-01-01. -/
def toOrdinal (d : PyDate) : Nat :=
  daysBeforeYear d.year + daysBeforeMonth d.year d.month + d.day

/-- The validity check of the `datetime.date` constructor:
`MINYEAR ≤ year ≤ MAXYEAR`, `1 ≤ month ≤ 12`, `1 ≤ day ≤ days_in_month`. -/
def isValidDate (d : PyDate) : Bool :=
  decide (1 ≤ d.year ∧ d.year ≤ 9999 ∧ 1 ≤ d.month ∧ d.month ≤ 12 ∧
    1 ≤ d.day ∧ d.day ≤ daysInMonth d.year d.month)

/-- Python `date.max.toordinal()`, the ordinal of 9999-12-31. -/
def maxOrdinal : Nat := 3652059

/-- Python `date` comparison (`<`), lexicographic on (year, month, day). -/
def pyDateLt (a b : PyDate) : Bool :=
  decide (a.year < b.year ∨ (a.year = b.year ∧
    (a.month < b.month ∨ (a.month = b.month ∧ a.day < b.day))))

/-- Python `date.weekday()`: Monday is 0 and Sunday is 6; 0001-01-01 (ordinal 1)
is a Monday. -/
def pyWeekday (d : PyDate) : Nat := (toOrdinal d + 6) % 7

/-- Calendar successor of a date: used to model adding a `timedelta` of
whole days (equal to ordinal arithmetic on valid dates, see
`toOrdinal_nextDay`). -/
def nextDay (d : PyDate) : PyDate :=
  if d.day < daysInMonth d.year d.month then ⟨d.year, d.month, d.day + 1⟩
  else if d.month < 12 then ⟨d.year, d.month + 1, 1⟩
  else ⟨d.year + 1, 1, 1⟩

/-- Add `n` days to a date by iterating the calendar successor. -/
def addDays (d : PyDate) (n : Nat) : PyDate :=
  match n with
  | 0 => d
  | k + 1 => nextDay (addDays d k)

/-- Python `date + timedelta(days=n)`: raises `OverflowError` when the
resulting ordinal exceeds `date.max.toordinal()`. -/
def pyAddDays (d : PyDate) (n : Nat) : Except PyErr PyDate :=
  if toOrdinal d + n ≤ maxOrdinal then .ok (addDays d n)
  else .error .overflowError

/-- Python `date.replace(year=y)` as a partial function: `none` when the
resulting triple is not a valid date (e.g. Feb 29 in a non-leap year, or a
year outside 1..9999). -/
def dateReplaceYear (d : PyDate) (y : Nat) : Option PyDate :=
  if isValidDate ⟨y, d.month, d.day⟩ then some ⟨y, d.month, d.day⟩ else none

/-- Message of the `ValueError` raised by `date.replace` on an invalid
day/month/year combination. -/
def dayOutOfRangeMsg : String := "day is out of range for month"

/-- Python `date.replace(year=y)`: raising version. -/
def dateReplaceYearE (d : PyDate) (y : Nat) : Except PyErr PyDate :=
  match dateReplaceYear d y with
  | some d2 => .ok d2
  | none => .error (.valueError dayOutOfRangeMsg)

/-- Message of the `ValueError` raised by the `Phone` constructor. -/
def phoneErrMsg : String := "Phone must contain exactly 10 digits."

/-- Message of the `ValueError` raised by the `Name` constructor. -/
def nameErrMsg : String := "Name cannot be empty."

/-- Message of the `ValueError` raised by the `Birthday` constructor. -/
def birthdayErrMsg : String :=
  "Birthday date must be in " ++ quoteS ++ "DD.MM.YYYY" ++ quoteS ++ " format."

/-- Message of the `ValueError` raised by `Record.remove_phone` when no
phone matches. -/
def removePhoneErrMsg (phone name : String) : String :=
  "Phone " ++ quoteS ++ phone ++ quoteS ++ " not found for contact " ++
    quoteS ++ name ++ quoteS ++ "."

/-- Message of the `ValueError` raised by `Record.edit_phone` when the old
phone is not present. -/
def editPhoneErrMsg (old name : String) : String :=
  "Old phone " ++ quoteS ++ old ++ quoteS ++ " not found for contact " ++
    quoteS ++ name ++ quoteS ++ "."

/-- The `Name` constructor: strips the text and rejects an empty result;
the stored value is the stripped text. -/
def pyName (s : String) : Except PyErr String :=
  let t := stripS s
  if t.data = [] then .error (.valueError nameErrMsg) else .ok t

/-- The `Phone` constructor: strips the text and requires `isdigit` and
length 10; the stored value is the stripped text. -/
def pyPhone (s : String) : Except PyErr String :=
  let t := stripS s
  if (¬ t.data = []) ∧ allDigits t.data = true ∧ t.data.length = 10
    then .ok t
    else .error (.valueError phoneErrMsg)

/-- Field matching of `datetime.strptime(text, '%d.%m.%Y')`: the pattern
compiles to the regex `(3[01]|[12]\d|0[1-9]|[1-9])\.(1[0-2]|0[1-9]|[1-9])\.(\d\d\d\d)`
matched against the whole string, so the day and month fields are one or
two digits within range and the year field is exactly four digits; the
matched fields are then converted by `int` and passed to the
`datetime` constructor, which re-validates the calendar date. -/
def parseDMY (l : List Char) : Except PyErr PyDate :=
  match splitOnDot l with
  | [ds, ms, ys] =>
    if 1 ≤ ds.length ∧ ds.length ≤ 2 ∧ allDigits ds = true ∧
        1 ≤ digitsVal ds ∧ digitsVal ds ≤ 31 ∧
        1 ≤ ms.length ∧ ms.length ≤ 2 ∧ allDigits ms = true ∧
        1 ≤ digitsVal ms ∧ digitsVal ms ≤ 12 ∧
        ys.length = 4 ∧ allDigits ys = true then
      if isValidDate ⟨digitsVal ys, digitsVal ms, digitsVal ds⟩ = true then
        .ok ⟨digitsVal ys, digitsVal ms, digitsVal ds⟩
      else .error (.valueError birthdayErrMsg)
    else .error (.valueError birthdayErrMsg)
  | _ => .error (.valueError birthdayErrMsg)

/-- The `Birthday` constructor: strips the text and parses it with
`strptime('%d.%m.%Y')`, turning any parse failure into the constructor's
own `ValueError`; the stored value is the parsed date. -/
def pyBirthday (s : String) : Except PyErr PyDate :=
  parseDMY (stripList s.data)

/-- Rendering `Birthday.__str__`: renders the stored date with
`strftime('%d.%m.%Y')`, zero-padded. -/
def birthdayStr (d : PyDate) : String :=
  ⟨pad2 d.day ++ '.' :: pad2 d.month ++ '.' :: pad4 d.year⟩

/-- Format `strftime('%Y-%m-%d')`, the one used for congratulation dates. -/
def formatYMD (d : PyDate) : String :=
  ⟨pad4 d.year ++ '-' :: pad2 d.month ++ '-' :: pad2 d.day⟩

/-- A `Record`: the validated name text, the list of stored phone values
in insertion order, and the optional birthday date. -/
structure Record where
  name : String
  phones : List String
  birthday : Option PyDate
  deriving DecidableEq, Repr

/-- Constructor `Record.__init__`: validates the name, starts with no phones and no
birthday. -/
def Record.make (name : String) : Except PyErr Record :=
  match pyName name with
  | .error e => .error e
  | .ok n => .ok ⟨n, [], none⟩

/-- Method `Record.add_phone`: validates and appends; on a validation failure the
record is unchanged (the exception propagates). -/
def Record.add_phone (r : Record) (phone_str : String) : Except PyErr Record :=
  match pyPhone phone_str with
  | .error e => .error e
  | .ok p => .ok { r with phones := r.phones ++ [p] }

/-- Method `Record.remove_phone`: deletes the first phone whose value equals the
argument, raising `ValueError` if none matches. -/
def Record.removePhonesAux (name phone : String) :
    List String → Except PyErr (List String)
  | [] => .error (.valueError (removePhoneErrMsg phone name))
  | p :: rest =>
    if p = phone then .ok rest
    else
      match Record.removePhonesAux name phone rest with
      | .error e => .error e
      | .ok rest2 => .ok (p :: rest2)

/-- Method `Record.remove_phone` at the record level. -/
def Record.remove_phone (r : Record) (phone_str : String) : Except PyErr Record :=
  match Record.removePhonesAux r.name phone_str r.phones with
  | .error e => .error e
  | .ok ps => .ok { r with phones := ps }

/-- Loop of `Record.edit_phone` over the phone list: at the first phone
equal to `old` the replacement is validated and substituted in place; the
result pairs the raised exception (if any) with the final list, which is
unchanged whenever an exception is raised. -/
def Record.editPhonesAux (name old new : String) :
    List String → Option PyErr × List String
  | [] => (some (.valueError (editPhoneErrMsg old name)), [])
  | p :: rest =>
    if p = old then
      match pyPhone new with
      | .error e => (some e, p :: rest)
      | .ok np => (none, np :: rest)
    else
      match Record.editPhonesAux name old new rest with
      | (res, rest2) => (res, p :: rest2)

/-- Method `Record.edit_phone`, returning the raised exception (if any) together
with the state of the record after the call. -/
def Record.edit_phone_run (r : Record) (old new : String) :
    Option PyErr × Record :=
  match Record.editPhonesAux r.name old new r.phones with
  | (res, ps) => (res, { r with phones := ps })

/-- Method `Record.edit_birthday`: validates and stores the new birthday; on a
validation failure the previous birthday is kept. -/
def Record.edit_birthday (r : Record) (birthday_str : String) :
    Except PyErr Record :=
  match pyBirthday birthday_str with
  | .error e => .error e
  | .ok d => .ok { r with birthday := some d }

/-- Method `Record.remove_birthday`: clears the birthday. -/
def Record.remove_birthday (r : Record) : Record :=
  { r with birthday := none }

/-- An `AddressBook` is the underlying `dict`: an insertion-ordered list
of (key, record) pairs with unique keys. -/
abbrev AddressBook := List (String × Record)

/-- Assignment `self.data[k] = r` on an insertion-ordered dict: an
existing key keeps its position, a new key is appended. -/
def AddressBook.setKey : AddressBook → String → Record → AddressBook
  | [], k, r => [(k, r)]
  | (k0, r0) :: rest, k, r =>
    if k0 = k then (k, r) :: rest
    else (k0, r0) :: AddressBook.setKey rest k r

/-- Method `AddressBook.add_record`: stores the record under its name text. -/
def AddressBook.add_record (book : AddressBook) (r : Record) : AddressBook :=
  AddressBook.setKey book r.name r

/-- Method `AddressBook.find`: `self.data.get(name)`. -/
def AddressBook.find : AddressBook → String → Option Record
  | [], _ => none
  | (k, r) :: rest, name =>
    if k = name then some r else AddressBook.find rest name

/-- Removal of a key from the dict (`del self.data[name]`). -/
def AddressBook.eraseKey : AddressBook → String → AddressBook
  | [], _ => []
  | (k, r) :: rest, name =>
    if k = name then rest else (k, r) :: AddressBook.eraseKey rest name

/-- Method `AddressBook.delete`: removes the entry if present and reports whether
a removal occurred; never raises. -/
def AddressBook.delete (book : AddressBook) (name : String) :
    Bool × AddressBook :=
  if (AddressBook.find book name).isSome then
    (true, AddressBook.eraseKey book name)
  else (false, book)

/-- An element of the list returned by `get_upcoming_birthdays`: the dict
`{"name": ..., "birthday": ...}` with the formatted congratulation date
stored under the `"birthday"` key. -/
structure Entry where
  name : String
  birthday : String
  deriving DecidableEq, Repr

/-- The weekend adjustment of `get_upcoming_birthdays`: if the date's
weekday is 5 (Saturday) or 6 (Sunday), add `7 - weekday` days. -/
def congratDay (d : PyDate) : Except PyErr PyDate :=
  if 5 ≤ pyWeekday d then pyAddDays d (7 - pyWeekday d) else .ok d

/-- Body of the loop of `get_upcoming_birthdays` for one record: `ok none`
when the record is skipped (no birthday, or outside the window), `ok (some
entry)` when an output entry is appended, `error` when the iteration
raises. -/
def upcomingEntry (r : Record) (today : PyDate) :
    Except PyErr (Option Entry) :=
  match r.birthday with
  | none => .ok none
  | some bday =>
    match dateReplaceYearE bday today.year with
    | .error e => .error e
    | .ok ty =>
      match (if pyDateLt ty today then dateReplaceYearE ty (today.year + 1)
             else .ok ty) with
      | .error e => .error e
      | .ok ty2 =>
        let delta : Int := (toOrdinal ty2 : Int) - (toOrdinal today : Int)
        if 0 ≤ delta ∧ delta ≤ 7 then
          match congratDay ty2 with
          | .error e => .error e
          | .ok cd => .ok (some ⟨r.name, formatYMD cd⟩)
        else .ok none

/-- The loop of `get_upcoming_birthdays` over the stored records, in
iteration order; an exception aborts the whole call. -/
def upcomingLoop (today : PyDate) : List Record → Except PyErr (List Entry)
  | [] => .ok []
  | r :: rest =>
    match upcomingEntry r today with
    | .error e => .error e
    | .ok none => upcomingLoop today rest
    | .ok (some en) =>
      match upcomingLoop today rest with
      | .error e => .error e
      | .ok l => .ok (en :: l)

/-- Method `AddressBook.get_upcoming_birthdays`; the source reads the current
date with `date.today()`, modelled here as the explicit argument
`today`. -/
def AddressBook.get_upcoming_birthdays (book : AddressBook) (today : PyDate) :
    Except PyErr (List Entry) :=
  upcomingLoop today (book.map Prod.snd)

/-- The loop of `get_upcoming_birthdays` with the traversed collection
threaded through, pairing the result with the state of the collection
after the call. -/
def upcomingLoopRun (today : PyDate) :
    List (String × Record) → Except PyErr (List Entry) × List (String × Record)
  | [] => (.ok [], [])
  | (k, r) :: rest =>
    match upcomingEntry r today with
    | .error e => (.error e, (k, r) :: rest)
    | .ok none =>
      match upcomingLoopRun today rest with
      | (res, rest2) => (res, (k, r) :: rest2)
    | .ok (some en) =>
      match upcomingLoopRun today rest with
      | (.error e, rest2) => (.error e, (k, r) :: rest2)
      | (.ok l, rest2) => (.ok (en :: l), (k, r) :: rest2)

/-- Method `AddressBook.get_upcoming_birthdays` with the book state threaded
through and returned. -/
def AddressBook.get_upcoming_birthdays_run (book : AddressBook)
    (today : PyDate) : Except PyErr (List Entry) × AddressBook :=
  upcomingLoopRun today book

/-- The `input_error` decorator: turns the exceptions raised by a handler
into the friendly messages. -/
def input_error_msg : PyErr → String
  | .keyError => "Contact not found. Please check the name."
  | .valueError _ => "Give me name and phone please."
  | .indexError => "Enter user name."
  | .overflowError => "Unexpected error: date value out of range"

/-- The `add` command handler `add_contact` under the `input_error`
decorator, returning the reply text and the book state after the call.
Unpacking `name, phone = args` raises `ValueError` unless exactly two
arguments are given. -/
def add_contact (args : List String) (book : AddressBook) :
    String × AddressBook :=
  match args with
  | [name, phone] =>
    match AddressBook.find book name with
    | some r =>
      match Record.add_phone r phone with
      | .error e => (input_error_msg e, book)
      | .ok r2 =>
        ("Added phone " ++ quoteS ++ phone ++ quoteS ++
           " to existing contact " ++ quoteS ++ name ++ quoteS ++ ".",
         AddressBook.setKey book name r2)
    | none =>
      match Record.make name with
      | .error e => (input_error_msg e, book)
      | .ok r =>
        match Record.add_phone r phone with
        | .error e => (input_error_msg e, book)
        | .ok r2 =>
          ("Contact " ++ quoteS ++ name ++ quoteS ++ " with phone " ++
             quoteS ++ phone ++ quoteS ++ " added.",
           AddressBook.add_record book r2)
  | _ => (input_error_msg (.valueError "not enough values to unpack"), book)

/-- Rendering of `self.birthday` inside an f-string: `None` renders as the
text `None`, a `Birthday` renders through its `__str__`. -/
def optBirthdayStr : Option PyDate → String
  | none => "None"
  | some d => birthdayStr d

/-- The `show-birthday` command handler under the `input_error` decorator:
`args[0]` raises `IndexError` on an empty argument list, a missing contact
raises `KeyError`, and otherwise the reply renders the record's birthday
field. -/
def show_birthday (args : List String) (book : AddressBook) : String :=
  match args with
  | [] => input_error_msg .indexError
  | name :: _ =>
    match AddressBook.find book name with
    | none => input_error_msg .keyError
    | some r => name ++ ": " ++ optBirthdayStr r.birthday ++ "."

/-- The mutating operations on an address book reachable from the command
handlers: record insertion, deletion, and the in-place record mutations
(phone add/edit/remove, birthday set/clear) applied to a named record. -/
inductive BookOp where
  | add_record (r : Record)
  | del (name : String)
  | add_phone (name phone : String)
  | edit_phone (name old new : String)
  | remove_phone (name phone : String)
  | edit_birthday (name birthday : String)
  | remove_birthday (name : String)

/-- Apply an in-place mutation to the record stored under `name`; when the
name is absent the handlers raise `KeyError` before touching the book. -/
def AddressBook.mutateAt (book : AddressBook) (name : String)
    (f : Record → Record) : AddressBook :=
  match AddressBook.find book name with
  | none => book
  | some r => AddressBook.setKey book name (f r)

/-- One step of the address-book state machine: apply a `BookOp`; a record
operation that raises leaves the record as the run version left it. -/
def AddressBook.applyOp (book : AddressBook) : BookOp → AddressBook
  | .add_record r => AddressBook.add_record book r
  | .del name => (AddressBook.delete book name).2
  | .add_phone name p => AddressBook.mutateAt book name (fun r =>
      match Record.add_phone r p with
      | .ok r2 => r2
      | .error _ => r)
  | .edit_phone name o n => AddressBook.mutateAt book name (fun r =>
      (Record.edit_phone_run r o n).2)
  | .remove_phone name p => AddressBook.mutateAt book name (fun r =>
      match Record.remove_phone r p with
      | .ok r2 => r2
      | .error _ => r)
  | .edit_birthday name b => AddressBook.mutateAt book name (fun r =>
      match Record.edit_birthday r b with
      | .ok r2 => r2
      | .error _ => r)
  | .remove_birthday name => AddressBook.mutateAt book name
      Record.remove_birthday

/-- The address book obtained from the empty book by a sequence of
operations. -/
def AddressBook.applyOps (ops : List BookOp) : AddressBook :=
  List.foldl AddressBook.applyOp [] ops

/-- Claim-side: the next occurrence of a birthday relative to `today` —
the birthday date with its year replaced by today's year, advanced to next
year if that date is strictly before today; undefined (`none`) when the
year replacement is not a valid date. -/
def nextOccurrenceSpec (bday today : PyDate) : Option PyDate :=
  match dateReplaceYear bday today.year with
  | none => none
  | some ty =>
    if pyDateLt ty today then dateReplaceYear ty (today.year + 1)
    else some ty

/-- Claim-side: the occurrence lies between 0 and 7 days after `today`,
inclusive. -/
def windowOk (occ today : PyDate) : Bool :=
  decide (0 ≤ (toOrdinal occ : Int) - (toOrdinal today : Int) ∧
    (toOrdinal occ : Int) - (toOrdinal today : Int) ≤ 7)

/-- Claim-side: the emitted congratulation date — the occurrence date
unless it falls on Saturday (weekday 5) or Sunday (weekday 6), in which
case it is shifted forward by `7 - weekday` days to the following
Monday. -/
def congratulationDateSpec (occ : PyDate) : PyDate :=
  if 5 ≤ pyWeekday occ then addDays occ (7 - pyWeekday occ) else occ

/-- Claim-side: the text is a valid calendar date written in day.month.year
order with a zero-padded 2-digit day, 2-digit month and 4-digit year
(the `DD.MM.YYYY` form of the claim). -/
def zeroPaddedDMY (l : List Char) : Bool :=
  match splitOnDot l with
  | [ds, ms, ys] =>
    decide (ds.length = 2 ∧ allDigits ds = true ∧
      ms.length = 2 ∧ allDigits ms = true ∧
      ys.length = 4 ∧ allDigits ys = true ∧
      isValidDate ⟨digitsVal ys, digitsVal ms, digitsVal ds⟩ = true)
  | _ => false

/-- Claim-side (amended): the text is a valid calendar date written in
day.month.year order with a 1- or 2-digit day, a 1- or 2-digit month and a
4-digit year. -/
def flexibleDMY (l : List Char) : Bool :=
  match splitOnDot l with
  | [ds, ms, ys] =>
    decide (1 ≤ ds.length ∧ ds.length ≤ 2 ∧ allDigits ds = true ∧
      1 ≤ ms.length ∧ ms.length ≤ 2 ∧ allDigits ms = true ∧
      ys.length = 4 ∧ allDigits ys = true ∧
      isValidDate ⟨digitsVal ys, digitsVal ms, digitsVal ds⟩ = true)
  | _ => false

/-- Claim-side: the text consists of exactly 10 decimal-digit
characters. -/
def tenDecimalDigits (l : List Char) : Bool :=
  decide (l.length = 10 ∧ allDigits l = true)

/-! ### Character and string helper lemmas -/

theorem isDigitC_not_space {c : Char} (h : isDigitC c = true) :
    isSpaceC c = false := by
  unfold isDigitC charToDigitO at h
  split_ifs at h with h0 h1 h2 h3 h4 h5 h6 h7 h8 h9
  all_goals first
    | (subst_vars; decide)
    | simp at h

theorem isDigitC_ne_dot {c : Char} (h : isDigitC c = true) : ¬ c = '.' := by
  unfold isDigitC charToDigitO at h
  split_ifs at h with h0 h1 h2 h3 h4 h5 h6 h7 h8 h9
  all_goals first
    | (subst_vars; decide)
    | simp at h

theorem digitChar10_charToDigit {c : Char} (h : isDigitC c = true) :
    digitChar10 (charToDigit c) = c := by
  unfold isDigitC at h
  unfold charToDigit
  unfold charToDigitO at h ⊢
  split_ifs at h with h0 h1 h2 h3 h4 h5 h6 h7 h8 h9
  all_goals first
    | (subst_vars; decide)
    | simp at h

theorem charToDigit_le_nine (c : Char) : charToDigit c ≤ 9 := by
  unfold charToDigit charToDigitO
  split_ifs <;> simp

theorem isDigitC_digitChar10 (n : Nat) : isDigitC (digitChar10 n) = true := by
  unfold digitChar10
  split_ifs <;> decide

theorem charToDigit_digitChar10 {n : Nat} (h : n ≤ 9) :
    charToDigit (digitChar10 n) = n := by
  unfold digitChar10
  split_ifs with h0 h1 h2 h3 h4 h5 h6 h7 h8
  all_goals subst_vars
  all_goals first
    | decide
    | (have : n = 9 := by omega
       subst this; decide)

theorem dropWhile_eq_self {p : Char → Bool} {l : List Char}
    (h : ∀ c ∈ l, p c = false) : l.dropWhile p = l := by
  cases l with
  | nil => rfl
  | cons a l => simp [List.dropWhile_cons, h a (by simp)]

theorem stripList_eq_self {l : List Char}
    (h : ∀ c ∈ l, isSpaceC c = false) : stripList l = l := by
  unfold stripList dropSpaces
  rw [dropWhile_eq_self h]
  rw [dropWhile_eq_self (fun c hc => h c (List.mem_reverse.mp hc))]
  exact List.reverse_reverse l

theorem stripList_of_allDigits {l : List Char} (h : allDigits l = true) :
    stripList l = l := by
  refine stripList_eq_self fun c hc => ?_
  exact isDigitC_not_space (by
    have := List.all_eq_true.mp h c hc
    simpa using this)

theorem stripS_eq_self {s : String} (h : ∀ c ∈ s.data, isSpaceC c = false) :
    stripS s = s := by
  cases s with
  | mk l =>
    show (⟨stripList l⟩ : String) = ⟨l⟩
    rw [stripList_eq_self h]

/-! ### C4: the Phone constructor -/

/-- C4: `Phone(text)` succeeds exactly when the trimmed text consists of
exactly 10 decimal digits, fails with the constructor's `ValueError`
otherwise, and on success stores the trimmed text unchanged — in
particular `Phone(s)` stores `s` itself for every 10-digit `s`. -/
theorem phone_ten_digit_validation (s : String) :
    ((∃ t, pyPhone s = .ok t) ↔ tenDecimalDigits (stripS s).data = true) ∧
    (∀ t, pyPhone s = .ok t → t = stripS s) ∧
    (tenDecimalDigits (stripS s).data = false →
      pyPhone s = .error (.valueError phoneErrMsg)) ∧
    (tenDecimalDigits s.data = true → pyPhone s = .ok s) := by
  have key : pyPhone s =
      if (¬ (stripS s).data = []) ∧ allDigits (stripS s).data = true ∧
          (stripS s).data.length = 10
        then .ok (stripS s)
        else .error (.valueError phoneErrMsg) := rfl
  have cond_iff : ((¬ (stripS s).data = []) ∧ allDigits (stripS s).data = true ∧
      (stripS s).data.length = 10) ↔ tenDecimalDigits (stripS s).data = true := by
    unfold tenDecimalDigits
    rw [decide_eq_true_eq]
    constructor
    · rintro ⟨_, h2, h3⟩; exact ⟨h3, h2⟩
    · rintro ⟨h1, h2⟩
      refine ⟨?_, h2, h1⟩
      intro hnil
      rw [hnil] at h1
      simp at h1
  refine ⟨⟨?_, ?_⟩, ?_, ?_, ?_⟩
  · rintro ⟨t, ht⟩
    rw [key] at ht
    split_ifs at ht with hcond
    exact cond_iff.mp hcond
  · intro h
    exact ⟨stripS s, by rw [key, if_pos (cond_iff.mpr h)]⟩
  · intro t ht
    rw [key] at ht
    split_ifs at ht
    cases ht; rfl
  · intro h
    rw [key, if_neg]
    intro hcond
    rw [cond_iff.mp hcond] at h
    cases h
  · intro h
    have hall : allDigits s.data = true := (decide_eq_true_eq.mp h).2
    have hstrip : stripS s = s := stripS_eq_self fun c hc =>
      isDigitC_not_space (by simpa using List.all_eq_true.mp hall c hc)
    rw [key, hstrip, if_pos]
    have hp := decide_eq_true_eq.mp h
    refine ⟨?_, hp.2, hp.1⟩
    intro hnil
    rw [hnil] at hp
    simp at hp

/-- Witness for C4 at concrete inputs: a padded 10-digit string is
accepted and trimmed, a 9-digit string is rejected, and a bare 10-digit
string is stored unchanged. -/
theorem phone_ten_digit_validation_witness :
    (∃ t, pyPhone " 1234567890 " = .ok t) ∧
    pyPhone "123456789" = .error (.valueError phoneErrMsg) ∧
    pyPhone "1234567890" = .ok "1234567890" :=
  ⟨(phone_ten_digit_validation " 1234567890 ").1.mpr (by decide),
   (phone_ten_digit_validation "123456789").2.2.1 (by decide),
   (phone_ten_digit_validation "1234567890").2.2.2 (by decide)⟩

/-! ### C7: AddressBook.delete -/

theorem find_eq_none_of_not_mem_keys {book : AddressBook} {name : String}
    (h : name ∉ book.map Prod.fst) : AddressBook.find book name = none := by
  induction book with
  | nil => rfl
  | cons p rest ih =>
    obtain ⟨k, r⟩ := p
    simp only [List.map, List.mem_cons] at h
    push_neg at h
    simp only [AddressBook.find]
    rw [if_neg (by exact fun hk => h.1 hk.symm)]
    exact ih h.2

theorem find_eraseKey_self {book : AddressBook} {name : String}
    (hnd : (book.map Prod.fst).Nodup) :
    AddressBook.find (AddressBook.eraseKey book name) name = none := by
  induction book with
  | nil => rfl
  | cons p rest ih =>
    obtain ⟨k, r⟩ := p
    simp only [List.map, List.nodup_cons] at hnd
    simp only [AddressBook.eraseKey]
    by_cases hk : k = name
    · rw [if_pos hk]
      subst hk
      exact find_eq_none_of_not_mem_keys hnd.1
    · rw [if_neg hk]
      simp only [AddressBook.find]
      rw [if_neg hk]
      exact ih hnd.2

/-- C7: `delete(name)` never raises; on an absent name it returns `false`
and leaves the book unchanged; on a present name it returns `true` and,
keys being unique as in a `dict`, a subsequent `find(name)` returns
`none`. -/
theorem delete_absent_false_present_true (book : AddressBook) (name : String) :
    (AddressBook.find book name = none →
      AddressBook.delete book name = (false, book)) ∧
    (∀ r, AddressBook.find book name = some r →
      (AddressBook.delete book name).1 = true ∧
      ((book.map Prod.fst).Nodup →
        AddressBook.find (AddressBook.delete book name).2 name = none)) := by
  constructor
  · intro h
    unfold AddressBook.delete
    rw [h]
    rfl
  · intro r h
    unfold AddressBook.delete
    rw [h]
    exact ⟨rfl, fun hnd => find_eraseKey_self hnd⟩

/-- Witness for C7: deleting an absent name returns `false` and keeps the
book; deleting a present name returns `true` and makes it unfindable. -/
theorem delete_absent_false_present_true_witness :
    (AddressBook.delete [("Ann", ⟨"Ann", [], none⟩)] "Zed" =
      (false, [("Ann", ⟨"Ann", [], none⟩)])) ∧
    (AddressBook.delete [("Ann", ⟨"Ann", [], none⟩)] "Ann").1 = true ∧
    AddressBook.find (AddressBook.delete [("Ann", ⟨"Ann", [], none⟩)] "Ann").2
      "Ann" = none := by
  refine ⟨(delete_absent_false_present_true _ "Zed").1 (by decide), ?_, ?_⟩
  · exact ((delete_absent_false_present_true _ "Ann").2 ⟨"Ann", [], none⟩
      (by decide)).1
  · exact ((delete_absent_false_present_true _ "Ann").2 ⟨"Ann", [], none⟩
      (by decide)).2 (by decide)

/-! ### C8: the add command with a single argument -/

/-- C8: invoking the `add` handler with a single argument makes the
`name, phone = args` unpacking raise `ValueError`, which the `input_error`
decorator turns into the uniform wrong-arguments reply; the book is
returned unchanged. -/
theorem add_contact_single_arg (book : AddressBook) (arg : String) :
    add_contact [arg] book = ("Give me name and phone please.", book) := rfl

/-! ### C9: the birthday query is read-only -/

/-- C9: `get_upcoming_birthdays` only reads the collection: threading the
book through the loop returns exactly the query result together with the
unchanged book (every key and every stored record is intact). -/
theorem get_upcoming_birthdays_readonly (book : AddressBook) (today : PyDate) :
    AddressBook.get_upcoming_birthdays_run book today =
      (AddressBook.get_upcoming_birthdays book today, book) := by
  unfold AddressBook.get_upcoming_birthdays_run
    AddressBook.get_upcoming_birthdays
  induction book with
  | nil => rfl
  | cons p rest ih =>
    obtain ⟨k, r⟩ := p
    simp only [upcomingLoopRun, List.map, upcomingLoop]
    cases h : upcomingEntry r today with
    | error e => rfl
    | ok o =>
      cases o with
      | none => rw [ih]
      | some en =>
        rw [ih]
        cases h2 : upcomingLoop today (rest.map Prod.snd) <;> rfl

/-! ### C10: show-birthday for a contact without a birthday -/

/-- C10: for a stored contact whose birthday was never set, the
`show-birthday` handler does not raise: the reply renders the `None`
field literally, as `<name>: None.`. -/
theorem show_birthday_renders_none (book : AddressBook) (name : String)
    (r : Record) (hf : AddressBook.find book name = some r)
    (hb : r.birthday = none) :
    show_birthday [name] book = name ++ ": None." := by
  simp only [show_birthday, hf, hb, optBirthdayStr]
  rw [String.append_assoc, String.append_assoc]
  rfl

/-- Witness for C10 at a concrete book. -/
theorem show_birthday_renders_none_witness :
    show_birthday ["Bob"] [("Bob", ⟨"Bob", ["1234567890"], none⟩)] =
      "Bob: None." :=
  show_birthday_renders_none _ "Bob" ⟨"Bob", ["1234567890"], none⟩
    (by decide) rfl

/-! ### C5: Record.edit_phone -/

theorem editPhonesAux_not_found {name old new : String} {l : List String}
    (h : old ∉ l) :
    Record.editPhonesAux name old new l =
      (some (.valueError (editPhoneErrMsg old name)), l) := by
  induction l with
  | nil => rfl
  | cons p rest ih =>
    simp only [List.mem_cons] at h
    push_neg at h
    simp only [Record.editPhonesAux]
    rw [if_neg (fun hp => h.1 hp.symm), ih h.2]

theorem editPhonesAux_found_error {name old new : String} {l : List String}
    {e : PyErr} (h : old ∈ l) (he : pyPhone new = .error e) :
    Record.editPhonesAux name old new l = (some e, l) := by
  induction l with
  | nil => cases h
  | cons p rest ih =>
    simp only [Record.editPhonesAux]
    by_cases hp : p = old
    · rw [if_pos hp, he]
    · rw [if_neg hp]
      have hrest : old ∈ rest := by
        rcases List.mem_cons.mp h with h1 | h1
        · exact absurd h1.symm hp
        · exact h1
      rw [ih hrest]

theorem editPhonesAux_found_ok {name old new t : String} {l : List String}
    (h : old ∈ l) (ht : pyPhone new = .ok t) :
    Record.editPhonesAux name old new l =
      (none, l.set (List.indexOf old l) t) := by
  induction l with
  | nil => cases h
  | cons p rest ih =>
    simp only [Record.editPhonesAux]
    by_cases hp : p = old
    · rw [if_pos hp, ht]
      have : List.indexOf old (p :: rest) = 0 := by
        rw [List.indexOf_cons]
        simp [hp]
      rw [this]
      rfl
    · rw [if_neg hp]
      have hrest : old ∈ rest := by
        rcases List.mem_cons.mp h with h1 | h1
        · exact absurd h1.symm hp
        · exact h1
      rw [ih hrest]
      have : List.indexOf old (p :: rest) = List.indexOf old rest + 1 := by
        rw [List.indexOf_cons]
        have : (p == old) = false := by
          simpa using hp
        simp [this]
      rw [this]
      rfl

/-- C5: `edit_phone(old, new)` replaces the first phone equal to `old` by
the newly validated phone in place; when `old` is absent it raises the
not-found `ValueError` and the record (in particular its phone list) is
unchanged; when `old` is present but `new` fails validation, the
constructor's `ValueError` is raised and the record is unchanged. -/
theorem edit_phone_first_match_or_errors (r : Record) (old new : String) :
    (old ∉ r.phones →
      Record.edit_phone_run r old new =
        (some (.valueError (editPhoneErrMsg old r.name)), r)) ∧
    (old ∈ r.phones → ∀ e, pyPhone new = .error e →
      Record.edit_phone_run r old new = (some e, r)) ∧
    (old ∈ r.phones → ∀ t, pyPhone new = .ok t →
      Record.edit_phone_run r old new =
        (none, { r with phones := r.phones.set (List.indexOf old r.phones) t })) := by
  refine ⟨?_, ?_, ?_⟩
  · intro h
    simp only [Record.edit_phone_run, editPhonesAux_not_found h]
  · intro h e he
    simp only [Record.edit_phone_run, editPhonesAux_found_error h he]
  · intro h t ht
    simp only [Record.edit_phone_run, editPhonesAux_found_ok h ht]

/-- Witness for C5 at concrete records: a missing old number raises the
not-found error and keeps the list, an invalid new number raises the
validation error and keeps the list, and a present old number is replaced
in place. -/
theorem edit_phone_first_match_or_errors_witness :
    (Record.edit_phone_run ⟨"Ann", ["1111111111"], none⟩ "2222222222"
        "3333333333" =
      (some (.valueError (editPhoneErrMsg "2222222222" "Ann")),
        ⟨"Ann", ["1111111111"], none⟩)) ∧
    (Record.edit_phone_run ⟨"Ann", ["1111111111"], none⟩ "1111111111" "33" =
      (some (.valueError phoneErrMsg), ⟨"Ann", ["1111111111"], none⟩)) ∧
    (Record.edit_phone_run ⟨"Ann", ["9999999999", "1111111111"], none⟩
        "1111111111" "3333333333" =
      (none, ⟨"Ann", ["9999999999", "3333333333"], none⟩)) := by
  refine ⟨?_, ?_, ?_⟩
  · exact (edit_phone_first_match_or_errors ⟨"Ann", ["1111111111"], none⟩
      "2222222222" "3333333333").1 (by decide)
  · exact (edit_phone_first_match_or_errors ⟨"Ann", ["1111111111"], none⟩
      "1111111111" "33").2.1 (by decide) _ (by rfl)
  · have := (edit_phone_first_match_or_errors
      ⟨"Ann", ["9999999999", "1111111111"], none⟩
      "1111111111" "3333333333").2.2 (by decide) "3333333333" (by rfl)
    rw [this]
    decide

/-! ### C6: the key-equals-name invariant -/

theorem mem_setKey {book : AddressBook} {k : String} {r : Record}
    {p : String × Record} (h : p ∈ AddressBook.setKey book k r) :
    p = (k, r) ∨ p ∈ book := by
  induction book with
  | nil =>
    simp only [AddressBook.setKey, List.mem_singleton] at h
    exact Or.inl h
  | cons q rest ih =>
    obtain ⟨k0, r0⟩ := q
    simp only [AddressBook.setKey] at h
    split_ifs at h with hk
    · rcases List.mem_cons.mp h with h1 | h1
      · exact Or.inl h1
      · exact Or.inr (List.mem_cons_of_mem _ h1)
    · rcases List.mem_cons.mp h with h1 | h1
      · exact Or.inr (h1 ▸ List.mem_cons_self _ _)
      · rcases ih h1 with h2 | h2
        · exact Or.inl h2
        · exact Or.inr (List.mem_cons_of_mem _ h2)

theorem mem_eraseKey {book : AddressBook} {name : String}
    {p : String × Record} (h : p ∈ AddressBook.eraseKey book name) :
    p ∈ book := by
  induction book with
  | nil => exact h
  | cons q rest ih =>
    obtain ⟨k0, r0⟩ := q
    simp only [AddressBook.eraseKey] at h
    split_ifs at h with hk
    · exact List.mem_cons_of_mem _ h
    · rcases List.mem_cons.mp h with h1 | h1
      · exact h1 ▸ List.mem_cons_self _ _
      · exact List.mem_cons_of_mem _ (ih h1)

theorem find_key_eq_name {book : AddressBook} {name : String} {r : Record}
    (hinv : ∀ p ∈ book, p.1 = p.2.name)
    (hf : AddressBook.find book name = some r) : name = r.name := by
  induction book with
  | nil => cases hf
  | cons q rest ih =>
    obtain ⟨k0, r0⟩ := q
    simp only [AddressBook.find] at hf
    split_ifs at hf with hk
    · injection hf with hf2
      subst hf2
      exact hk ▸ hinv (k0, r0) (List.mem_cons_self _ _)
    · exact ih (fun p hp => hinv p (List.mem_cons_of_mem _ hp)) hf

theorem add_phone_preserves_name {r r2 : Record} {p : String}
    (h : Record.add_phone r p = .ok r2) : r2.name = r.name := by
  unfold Record.add_phone at h
  cases hp : pyPhone p with
  | error e => rw [hp] at h; cases h
  | ok v => rw [hp] at h; cases h; rfl

theorem remove_phone_preserves_name {r r2 : Record} {p : String}
    (h : Record.remove_phone r p = .ok r2) : r2.name = r.name := by
  unfold Record.remove_phone at h
  cases hp : Record.removePhonesAux r.name p r.phones with
  | error e => rw [hp] at h; cases h
  | ok v => rw [hp] at h; cases h; rfl

theorem edit_phone_run_preserves_name (r : Record) (old new : String) :
    (Record.edit_phone_run r old new).2.name = r.name := by
  unfold Record.edit_phone_run
  cases h : Record.editPhonesAux r.name old new r.phones with
  | mk res ps => rfl

theorem edit_birthday_preserves_name {r r2 : Record} {b : String}
    (h : Record.edit_birthday r b = .ok r2) : r2.name = r.name := by
  unfold Record.edit_birthday at h
  cases hb : pyBirthday b with
  | error e => rw [hb] at h; cases h
  | ok d => rw [hb] at h; cases h; rfl

theorem applyOp_preserves_inv {book : AddressBook}
    (hinv : ∀ p ∈ book, p.1 = p.2.name) (op : BookOp) :
    ∀ p ∈ AddressBook.applyOp book op, p.1 = p.2.name := by
  have mutate_case : ∀ (name : String) (f : Record → Record),
      (∀ r : Record, (f r).name = r.name) →
      ∀ p ∈ AddressBook.mutateAt book name f, p.1 = p.2.name := by
    intro name f hf p hp
    unfold AddressBook.mutateAt at hp
    cases hfind : AddressBook.find book name with
    | none => rw [hfind] at hp; exact hinv p hp
    | some r =>
      rw [hfind] at hp
      rcases mem_setKey hp with h1 | h1
      · rw [h1]
        show name = (f r).name
        rw [hf r]
        exact find_key_eq_name hinv hfind
      · exact hinv p h1
  cases op with
  | add_record r =>
    intro p hp
    rcases mem_setKey hp with h1 | h1
    · rw [h1]
    · exact hinv p h1
  | del name =>
    intro p hp
    simp only [AddressBook.applyOp] at hp
    unfold AddressBook.delete at hp
    split_ifs at hp
    · exact hinv p (mem_eraseKey hp)
    · exact hinv p hp
  | add_phone name ph =>
    refine mutate_case name _ fun r => ?_
    cases h : Record.add_phone r ph with
    | ok r2 => exact add_phone_preserves_name h
    | error e => rfl
  | edit_phone name o n =>
    exact mutate_case name _ fun r => edit_phone_run_preserves_name r o n
  | remove_phone name ph =>
    refine mutate_case name _ fun r => ?_
    cases h : Record.remove_phone r ph with
    | ok r2 => exact remove_phone_preserves_name h
    | error e => rfl
  | edit_birthday name b =>
    refine mutate_case name _ fun r => ?_
    cases h : Record.edit_birthday r b with
    | ok r2 => exact edit_birthday_preserves_name h
    | error e => rfl
  | remove_birthday name =>
    exact mutate_case name _ fun r => rfl

theorem foldl_applyOp_preserves_inv (ops : List BookOp) :
    ∀ (book : AddressBook), (∀ p ∈ book, p.1 = p.2.name) →
      ∀ p ∈ List.foldl AddressBook.applyOp book ops, p.1 = p.2.name := by
  induction ops with
  | nil => intro book hinv; exact hinv
  | cons op rest ih =>
    intro book hinv
    exact ih _ (applyOp_preserves_inv hinv op)

/-- C6: in every address book reachable from the empty book by record
insertions, deletions and in-place record mutations, every key of the
underlying dict equals the name text of the record stored under it. -/
theorem reachable_book_key_eq_name (ops : List BookOp) :
    ∀ p ∈ AddressBook.applyOps ops, p.1 = p.2.name := by
  unfold AddressBook.applyOps
  exact foldl_applyOp_preserves_inv ops [] (by intro p hp; cases hp)

/-- Witness for C6: a concrete operation sequence (insert a record, then
set its birthday in place) and the resulting entry. -/
theorem reachable_book_key_eq_name_witness :
    (("Ann", (⟨"Ann", [], some ⟨1990, 3, 17⟩⟩ : Record)) : String × Record).1 =
      (("Ann", (⟨"Ann", [], some ⟨1990, 3, 17⟩⟩ : Record)) : String × Record).2.name :=
  reachable_book_key_eq_name
    [.add_record ⟨"Ann", [], none⟩, .edit_birthday "Ann" "17.03.1990"]
    ("Ann", ⟨"Ann", [], some ⟨1990, 3, 17⟩⟩) (by decide)

/-! ### Calendar arithmetic lemmas -/

theorem one_le_daysInMonth (y m : Nat) : 1 ≤ daysInMonth y m := by
  unfold daysInMonth
  split_ifs <;> omega

theorem daysInMonth_le_31 (y m : Nat) : daysInMonth y m ≤ 31 := by
  unfold daysInMonth
  split_ifs <;> omega

theorem daysBeforeMonth_succ {y m : Nat} (h1 : 1 ≤ m) (h2 : m ≤ 11) :
    daysBeforeMonth y (m + 1) = daysBeforeMonth y m + daysInMonth y m := by
  interval_cases m <;>
    cases hL : pyIsLeap y <;>
      simp [daysBeforeMonth, daysBeforeMonthBase, daysInMonth, hL]

set_option maxHeartbeats 1000000 in
theorem daysBeforeYear_succ {y : Nat} (h : 1 ≤ y) :
    daysBeforeYear (y + 1) =
      daysBeforeYear y + 365 + (if pyIsLeap y = true then 1 else 0) := by
  cases hL : pyIsLeap y with
  | false =>
    unfold pyIsLeap at hL
    have hm := of_decide_eq_false hL
    rw [if_neg (by simp)]
    unfold daysBeforeYear
    omega
  | true =>
    unfold pyIsLeap at hL
    have hm := of_decide_eq_true hL
    rw [if_pos rfl]
    unfold daysBeforeYear
    omega

theorem isValidDate_unfold {d : PyDate} (h : isValidDate d = true) :
    1 ≤ d.year ∧ d.year ≤ 9999 ∧ 1 ≤ d.month ∧ d.month ≤ 12 ∧
      1 ≤ d.day ∧ d.day ≤ daysInMonth d.year d.month :=
  decide_eq_true_eq.mp h

theorem isValidDate_mk {y m dd : Nat} :
    isValidDate ⟨y, m, dd⟩ = true ↔
      (1 ≤ y ∧ y ≤ 9999 ∧ 1 ≤ m ∧ m ≤ 12 ∧ 1 ≤ dd ∧
        dd ≤ daysInMonth y m) := by
  simp [isValidDate]

theorem toOrdinal_nextDay {d : PyDate} (h : isValidDate d = true) :
    toOrdinal (nextDay d) = toOrdinal d + 1 := by
  obtain ⟨hy1, hy2, hm1, hm2, hd1, hd2⟩ := isValidDate_unfold h
  unfold nextDay
  split_ifs with hlt hm
  · simp only [toOrdinal]
    omega
  · have hday : d.day = daysInMonth d.year d.month := by omega
    simp only [toOrdinal]
    rw [daysBeforeMonth_succ hm1 (by omega)]
    omega
  · have hm12 : d.month = 12 := by omega
    rw [hm12] at hd2 hlt
    have hdim : daysInMonth d.year 12 = 31 := by unfold daysInMonth; norm_num
    have hday : d.day = 31 := by omega
    simp only [toOrdinal]
    rw [daysBeforeYear_succ hy1, hm12, hday]
    cases hL : pyIsLeap d.year <;>
      simp [daysBeforeMonth, daysBeforeMonthBase, hL]

theorem toOrdinal_9999_12_31 : toOrdinal ⟨9999, 12, 31⟩ = maxOrdinal := by
  decide

theorem isValidDate_nextDay {d : PyDate} (h : isValidDate d = true)
    (hlt : toOrdinal d < maxOrdinal) : isValidDate (nextDay d) = true := by
  obtain ⟨hy1, hy2, hm1, hm2, hd1, hd2⟩ := isValidDate_unfold h
  unfold nextDay
  split_ifs with h1 h2
  · rw [isValidDate_mk]
    exact ⟨hy1, hy2, hm1, hm2, by omega, h1⟩
  · rw [isValidDate_mk]
    exact ⟨hy1, hy2, by omega, by omega, by omega, one_le_daysInMonth _ _⟩
  · have hm12 : d.month = 12 := by omega
    rw [hm12] at hd2 h1
    have hdim : daysInMonth d.year 12 = 31 := by unfold daysInMonth; norm_num
    have hday : d.day = 31 := by omega
    have hy : d.year ≤ 9998 := by
      by_contra hy
      have hy9999 : d.year = 9999 := by omega
      have hde : d = ⟨9999, 12, 31⟩ := by
        cases d
        simp_all
      rw [hde, toOrdinal_9999_12_31] at hlt
      omega
    rw [isValidDate_mk]
    exact ⟨by omega, by omega, by omega, by omega, by omega,
      one_le_daysInMonth _ _⟩

theorem addDays_ord {d : PyDate} {n : Nat} (h : isValidDate d = true)
    (hb : toOrdinal d + n ≤ maxOrdinal) :
    isValidDate (addDays d n) = true ∧
      toOrdinal (addDays d n) = toOrdinal d + n := by
  induction n with
  | zero => exact ⟨h, rfl⟩
  | succ k ih =>
    obtain ⟨ihv, iho⟩ := ih (by omega)
    have hlt : toOrdinal (addDays d k) < maxOrdinal := by omega
    refine ⟨isValidDate_nextDay ihv hlt, ?_⟩
    show toOrdinal (nextDay (addDays d k)) = toOrdinal d + (k + 1)
    rw [toOrdinal_nextDay ihv, iho]
    omega

theorem dateReplaceYear_some {d : PyDate} {y : Nat} {o : PyDate}
    (h : dateReplaceYear d y = some o) :
    isValidDate o = true ∧ o = ⟨y, d.month, d.day⟩ := by
  unfold dateReplaceYear at h
  split_ifs at h with hv
  · cases h
    exact ⟨hv, rfl⟩

theorem nextOccurrenceSpec_valid {b today occ : PyDate}
    (h : nextOccurrenceSpec b today = some occ) : isValidDate occ = true := by
  unfold nextOccurrenceSpec at h
  split at h
  · cases h
  next ty hty =>
    split_ifs at h with hlt
    · exact (dateReplaceYear_some h).1
    · cases h
      exact (dateReplaceYear_some hty).1

/-! ### Characterizing the birthday-query loop -/

theorem upcomingEntry_eq (r : Record) (today : PyDate) :
    upcomingEntry r today =
      match r.birthday with
      | none => .ok none
      | some bday =>
        match nextOccurrenceSpec bday today with
        | none => .error (.valueError dayOutOfRangeMsg)
        | some ty2 =>
          if windowOk ty2 today = true then
            match congratDay ty2 with
            | .error e => .error e
            | .ok cd => .ok (some ⟨r.name, formatYMD cd⟩)
          else .ok none := by
  unfold upcomingEntry nextOccurrenceSpec dateReplaceYearE
  cases hb : r.birthday with
  | none => rfl
  | some bday =>
    dsimp only
    cases h1 : dateReplaceYear bday today.year with
    | none => rfl
    | some ty =>
      dsimp only
      by_cases hlt : pyDateLt ty today = true
      · rw [if_pos hlt, if_pos hlt]
        cases h2 : dateReplaceYear ty (today.year + 1) with
        | none => rfl
        | some ty2 =>
          dsimp only
          by_cases hw : (0 ≤ (toOrdinal ty2 : Int) - (toOrdinal today : Int) ∧
              (toOrdinal ty2 : Int) - (toOrdinal today : Int) ≤ 7)
          · rw [if_pos hw, if_pos (by rw [windowOk, decide_eq_true_eq]; exact hw)]
          · rw [if_neg hw, if_neg (by rw [windowOk, decide_eq_true_eq]; exact hw)]
      · rw [if_neg hlt, if_neg hlt]
        dsimp only
        by_cases hw : (0 ≤ (toOrdinal ty : Int) - (toOrdinal today : Int) ∧
            (toOrdinal ty : Int) - (toOrdinal today : Int) ≤ 7)
        · rw [if_pos hw, if_pos (by rw [windowOk, decide_eq_true_eq]; exact hw)]
        · rw [if_neg hw, if_neg (by rw [windowOk, decide_eq_true_eq]; exact hw)]

theorem upcomingEntry_some_iff {r : Record} {today : PyDate} {e : Entry} :
    upcomingEntry r today = .ok (some e) ↔
      ∃ b, r.birthday = some b ∧
        ∃ occ, nextOccurrenceSpec b today = some occ ∧
          windowOk occ today = true ∧
          ∃ cd, congratDay occ = .ok cd ∧ e = ⟨r.name, formatYMD cd⟩ := by
  rw [upcomingEntry_eq]
  cases hb : r.birthday with
  | none => simp
  | some bday =>
    dsimp only
    simp only [Option.some.injEq]
    cases h1 : nextOccurrenceSpec bday today with
    | none =>
      dsimp only
      constructor
      · intro hcon; cases hcon
      · rintro ⟨b, hbb, occ, hocc, hw2, cd, hcd, hee⟩
        subst hbb
        rw [h1] at hocc
        cases hocc
    | some ty2 =>
      dsimp only
      by_cases hw : windowOk ty2 today = true
      · rw [if_pos hw]
        cases h2 : congratDay ty2 with
        | error e2 =>
          constructor
          · intro hcon; cases hcon
          · rintro ⟨b, hbb, occ, hocc, hw2, cd, hcd, hee⟩
            subst hbb
            rw [h1] at hocc
            cases hocc
            rw [h2] at hcd
            cases hcd
        | ok cd =>
          constructor
          · intro hcon
            injection hcon with hcon2
            injection hcon2 with hcon3
            exact ⟨bday, rfl, ty2, h1, hw, cd, h2, hcon3.symm⟩
          · rintro ⟨b, hbb, occ, hocc, hw2, cd2, hcd, hee⟩
            subst hbb
            rw [h1] at hocc
            cases hocc
            rw [h2] at hcd
            injection hcd with hcd2
            rw [hee, hcd2]
      · rw [if_neg hw]
        constructor
        · intro hcon; cases hcon
        · rintro ⟨b, hbb, occ, hocc, hw2, cd, hcd, hee⟩
          subst hbb
          rw [h1] at hocc
          cases hocc
          exact absurd hw2 hw

theorem upcomingEntry_none_iff {r : Record} {today : PyDate} :
    upcomingEntry r today = .ok none ↔
      r.birthday = none ∨
        ∃ b, r.birthday = some b ∧
          ∃ occ, nextOccurrenceSpec b today = some occ ∧
            windowOk occ today = false := by
  rw [upcomingEntry_eq]
  cases hb : r.birthday with
  | none => simp
  | some bday =>
    dsimp only
    simp only [reduceCtorEq, false_or, Option.some.injEq]
    cases h1 : nextOccurrenceSpec bday today with
    | none =>
      dsimp only
      constructor
      · intro hcon; cases hcon
      · rintro ⟨b, hbb, occ, hocc, hw⟩
        subst hbb
        rw [h1] at hocc
        cases hocc
    | some ty2 =>
      dsimp only
      by_cases hw : windowOk ty2 today = true
      · rw [if_pos hw]
        constructor
        · intro hcon
          cases h2 : congratDay ty2 with
          | error e2 => rw [h2] at hcon; cases hcon
          | ok cd => rw [h2] at hcon; cases hcon
        · rintro ⟨b, hbb, occ, hocc, hwf⟩
          subst hbb
          rw [h1] at hocc
          cases hocc
          rw [hw] at hwf
          cases hwf
      · rw [if_neg hw]
        constructor
        · intro _
          refine ⟨bday, rfl, ty2, h1, ?_⟩
          cases hwb : windowOk ty2 today with
          | false => rfl
          | true => exact absurd hwb hw
        · intro _
          rfl

theorem upcomingLoop_ok_of_mem {today : PyDate} {records : List Record}
    {out : List Entry} (hok : upcomingLoop today records = .ok out) :
    ∀ r ∈ records, ∃ v, upcomingEntry r today = .ok v := by
  induction records generalizing out with
  | nil => intro r hr; cases hr
  | cons q rest ih =>
    intro r hr
    unfold upcomingLoop at hok
    rcases List.mem_cons.mp hr with h1 | h1
    · subst h1
      cases hq : upcomingEntry r today with
      | error e => rw [hq] at hok; cases hok
      | ok v => exact ⟨v, rfl⟩
    · cases hq : upcomingEntry q today with
      | error e => rw [hq] at hok; cases hok
      | ok v =>
        rw [hq] at hok
        cases v with
        | none => exact ih hok r h1
        | some en =>
          dsimp only at hok
          cases h2 : upcomingLoop today rest with
          | error e => rw [h2] at hok; cases hok
          | ok l => exact ih h2 r h1

theorem upcomingLoop_mem_iff {today : PyDate} {records : List Record}
    {out : List Entry} (hok : upcomingLoop today records = .ok out)
    (e : Entry) :
    e ∈ out ↔ ∃ r ∈ records, upcomingEntry r today = .ok (some e) := by
  induction records generalizing out with
  | nil =>
    unfold upcomingLoop at hok
    injection hok with h2
    subst h2
    simp
  | cons q rest ih =>
    unfold upcomingLoop at hok
    cases hq : upcomingEntry q today with
    | error e2 => rw [hq] at hok; cases hok
    | ok v =>
      rw [hq] at hok
      cases v with
      | none =>
        rw [ih hok]
        simp only [List.mem_cons]
        constructor
        · rintro ⟨r, hr, hre⟩
          exact ⟨r, Or.inr hr, hre⟩
        · rintro ⟨r, hr | hr, hre⟩
          · subst hr
            rw [hq] at hre
            cases hre
          · exact ⟨r, hr, hre⟩
      | some en =>
        dsimp only at hok
        cases h2 : upcomingLoop today rest with
        | error e2 => rw [h2] at hok; cases hok
        | ok l =>
          rw [h2] at hok
          injection hok with h3
          subst h3
          simp only [List.mem_cons]
          constructor
          · rintro (rfl | hl)
            · exact ⟨q, Or.inl rfl, by rw [hq]⟩
            · obtain ⟨r, hr, hre⟩ := (ih h2).mp hl
              exact ⟨r, Or.inr hr, hre⟩
          · rintro ⟨r, hr | hr, hre⟩
            · subst hr
              rw [hq] at hre
              injection hre with h4
              injection h4 with h5
              exact Or.inl h5.symm
            · exact Or.inr ((ih h2).mpr ⟨r, hr, hre⟩)

/-! ### C1: membership in the upcoming-birthdays output -/

/-- C1 (amended): provided the query completes without raising — no stored
birthday turns into an invalid date when its year is replaced (a Feb 29
birthday against a non-leap year) — and with record names pairwise
distinct as dict keys make them, a stored contact appears in the output
exactly when it has a birthday whose next occurrence lies between 0 and 7
days after `today` inclusive; a contact without a birthday never
appears. -/
theorem upcoming_included_iff_in_window (book : AddressBook) (today : PyDate)
    (out : List Entry)
    (hnd : ((book.map Prod.snd).map Record.name).Nodup)
    (hok : AddressBook.get_upcoming_birthdays book today = .ok out)
    (r : Record) (hr : r ∈ book.map Prod.snd) :
    (∃ e ∈ out, e.name = r.name) ↔
      (∃ b, r.birthday = some b ∧
        ∃ occ, nextOccurrenceSpec b today = some occ ∧
          windowOk occ today = true) := by
  unfold AddressBook.get_upcoming_birthdays at hok
  constructor
  · rintro ⟨e, he, hname⟩
    obtain ⟨r2, hr2, hr2e⟩ := (upcomingLoop_mem_iff hok e).mp he
    obtain ⟨b, hb, occ, hocc, hw, cd, hcd, hee⟩ :=
      upcomingEntry_some_iff.mp hr2e
    have hname2 : r2.name = r.name := by
      rw [hee] at hname
      exact hname
    have : r2 = r :=
      List.inj_on_of_nodup_map hnd hr2 hr hname2
    subst this
    exact ⟨b, hb, occ, hocc, hw⟩
  · rintro ⟨b, hb, occ, hocc, hw⟩
    obtain ⟨v, hv⟩ := upcomingLoop_ok_of_mem hok r hr
    cases v with
    | none =>
      rcases upcomingEntry_none_iff.mp hv with h1 | ⟨b2, hb2, occ2, hocc2, hwf⟩
      · rw [h1] at hb
        cases hb
      · rw [hb] at hb2
        injection hb2 with hb3
        subst hb3
        rw [hocc] at hocc2
        injection hocc2 with hocc3
        subst hocc3
        rw [hw] at hwf
        cases hwf
    | some e =>
      refine ⟨e, (upcomingLoop_mem_iff hok e).mpr ⟨r, hr, hv⟩, ?_⟩
      obtain ⟨b2, hb2, occ2, hocc2, hw2, cd, hcd, hee⟩ :=
        upcomingEntry_some_iff.mp hv
      rw [hee]

/-- Witness for C1 at the spec's concrete scenario: with today 2024-06-10,
a contact with birthday 1990-06-12 is listed. -/
theorem upcoming_included_iff_in_window_witness :
    (∃ e ∈ [(⟨"Ann", "2024-06-12"⟩ : Entry)], e.name = "Ann") ↔
      (∃ b, ((⟨"Ann", [], some ⟨1990, 6, 12⟩⟩ : Record)).birthday = some b ∧
        ∃ occ, nextOccurrenceSpec b ⟨2024, 6, 10⟩ = some occ ∧
          windowOk occ ⟨2024, 6, 10⟩ = true) :=
  upcoming_included_iff_in_window
    [("Ann", ⟨"Ann", [], some ⟨1990, 6, 12⟩⟩)] ⟨2024, 6, 10⟩
    [⟨"Ann", "2024-06-12"⟩] (by decide) (by rfl)
    ⟨"Ann", [], some ⟨1990, 6, 12⟩⟩ (by decide)

/-- Counterexample to C1 as stated: with today 2023-06-10, a book holding
a contact `A` with birthday 2020-02-29 (Feb 29) and a contact `B` with
birthday 1990-06-11 makes the query raise `ValueError` (replacing the year
of Feb 29 by the non-leap 2023 is invalid), so it includes nothing at all
— in particular not `B`, although `B`'s next occurrence lies 1 day ahead,
inside the window. -/
theorem upcoming_included_iff_in_window_counterexample :
    AddressBook.get_upcoming_birthdays
        [("A", ⟨"A", [], some ⟨2020, 2, 29⟩⟩),
         ("B", ⟨"B", [], some ⟨1990, 6, 11⟩⟩)] ⟨2023, 6, 10⟩ =
      .error (.valueError dayOutOfRangeMsg) ∧
    (∀ out, AddressBook.get_upcoming_birthdays
        [("A", ⟨"A", [], some ⟨2020, 2, 29⟩⟩),
         ("B", ⟨"B", [], some ⟨1990, 6, 11⟩⟩)] ⟨2023, 6, 10⟩ ≠ .ok out) ∧
    (∃ b, ((⟨"B", [], some ⟨1990, 6, 11⟩⟩ : Record)).birthday = some b ∧
      ∃ occ, nextOccurrenceSpec b ⟨2023, 6, 10⟩ = some occ ∧
        windowOk occ ⟨2023, 6, 10⟩ = true) ∧
    (⟨"B", [], some ⟨1990, 6, 11⟩⟩ : Record) ∈
      ([("A", ⟨"A", [], some ⟨2020, 2, 29⟩⟩),
        ("B", ⟨"B", [], some ⟨1990, 6, 11⟩⟩)] : AddressBook).map Prod.snd := by
  have herr : AddressBook.get_upcoming_birthdays
      [("A", ⟨"A", [], some ⟨2020, 2, 29⟩⟩),
       ("B", ⟨"B", [], some ⟨1990, 6, 11⟩⟩)] ⟨2023, 6, 10⟩ =
      .error (.valueError dayOutOfRangeMsg) := by rfl
  refine ⟨herr, ?_, ?_, ?_⟩
  · intro out hout
    rw [herr] at hout
    cases hout
  · exact ⟨⟨1990, 6, 11⟩, rfl, ⟨2023, 6, 11⟩, by rfl, by decide⟩
  · decide

/-! ### C2: the emitted congratulation date -/

theorem congratDay_ok {d cd : PyDate} (h : congratDay d = .ok cd) :
    cd = congratulationDateSpec d ∧
      (5 ≤ pyWeekday d → toOrdinal d + (7 - pyWeekday d) ≤ maxOrdinal) := by
  unfold congratDay pyAddDays at h
  unfold congratulationDateSpec
  by_cases hw : 5 ≤ pyWeekday d
  · rw [if_pos hw] at h ⊢
    split_ifs at h with hb
    injection h with h2
    exact ⟨h2.symm, fun _ => hb⟩
  · rw [if_neg hw] at h ⊢
    injection h with h2
    exact ⟨h2.symm, fun hww => absurd hww hw⟩

theorem congratSpec_weekday_monday {d : PyDate} (hv : isValidDate d = true)
    (hw : 5 ≤ pyWeekday d)
    (hb : toOrdinal d + (7 - pyWeekday d) ≤ maxOrdinal) :
    pyWeekday (congratulationDateSpec d) = 0 := by
  unfold congratulationDateSpec
  rw [if_pos hw]
  show (toOrdinal (addDays d (7 - pyWeekday d)) + 6) % 7 = 0
  rw [(addDays_ord hv hb).2]
  have hw2 : pyWeekday d = (toOrdinal d + 6) % 7 := rfl
  omega

/-- C2: every entry of the upcoming-birthdays output carries the
congratulation date of its record's next birthday occurrence, formatted
`YYYY-MM-DD`: the occurrence itself on Monday..Friday, and the occurrence
shifted by `7 - weekday` days — 2 days from Saturday (weekday 5), 1 day
from Sunday (weekday 6) — to the following Monday (weekday 0)
otherwise. -/
theorem upcoming_entry_congratulation_date (book : AddressBook)
    (today : PyDate) (out : List Entry)
    (hok : AddressBook.get_upcoming_birthdays book today = .ok out)
    (e : Entry) (he : e ∈ out) :
    ∃ r ∈ book.map Prod.snd, ∃ b, r.birthday = some b ∧
      ∃ occ, nextOccurrenceSpec b today = some occ ∧
        e.name = r.name ∧
        e.birthday = formatYMD (congratulationDateSpec occ) ∧
        (pyWeekday occ = 5 → congratulationDateSpec occ = addDays occ 2) ∧
        (pyWeekday occ = 6 → congratulationDateSpec occ = addDays occ 1) ∧
        (pyWeekday occ < 5 → congratulationDateSpec occ = occ) ∧
        (5 ≤ pyWeekday occ → pyWeekday (congratulationDateSpec occ) = 0) := by
  unfold AddressBook.get_upcoming_birthdays at hok
  obtain ⟨r, hr, hre⟩ := (upcomingLoop_mem_iff hok e).mp he
  obtain ⟨b, hb, occ, hocc, hw, cd, hcd, hee⟩ := upcomingEntry_some_iff.mp hre
  obtain ⟨hcd2, hbound⟩ := congratDay_ok hcd
  refine ⟨r, hr, b, hb, occ, hocc, ?_, ?_, ?_, ?_, ?_, ?_⟩
  · rw [hee]
  · rw [hee]
    show formatYMD cd = formatYMD (congratulationDateSpec occ)
    rw [hcd2]
  · intro h5
    simp [congratulationDateSpec, h5]
  · intro h6
    simp [congratulationDateSpec, h6]
  · intro hlt5
    simp [congratulationDateSpec, show ¬ 5 ≤ pyWeekday occ by omega]
  · intro h5
    exact congratSpec_weekday_monday (nextOccurrenceSpec_valid hocc) h5
      (hbound h5)

/-- Witness for C2 at the spec's concrete scenario: with today 2024-06-10,
a contact with birthday 1985-06-15 (a Saturday in 2024) is congratulated
on Monday 2024-06-17. -/
theorem upcoming_entry_congratulation_date_witness :
    ∃ r ∈ ([("Bob", ⟨"Bob", [], some ⟨1985, 6, 15⟩⟩)] : AddressBook).map
        Prod.snd, ∃ b, r.birthday = some b ∧
      ∃ occ, nextOccurrenceSpec b ⟨2024, 6, 10⟩ = some occ ∧
        (⟨"Bob", "2024-06-17"⟩ : Entry).name = r.name ∧
        (⟨"Bob", "2024-06-17"⟩ : Entry).birthday =
          formatYMD (congratulationDateSpec occ) ∧
        (pyWeekday occ = 5 → congratulationDateSpec occ = addDays occ 2) ∧
        (pyWeekday occ = 6 → congratulationDateSpec occ = addDays occ 1) ∧
        (pyWeekday occ < 5 → congratulationDateSpec occ = occ) ∧
        (5 ≤ pyWeekday occ → pyWeekday (congratulationDateSpec occ) = 0) :=
  upcoming_entry_congratulation_date
    [("Bob", ⟨"Bob", [], some ⟨1985, 6, 15⟩⟩)] ⟨2024, 6, 10⟩
    [⟨"Bob", "2024-06-17"⟩] (by rfl) ⟨"Bob", "2024-06-17"⟩ (by decide)

/-! ### C3: digit and split lemmas for the Birthday round trip -/

theorem digitsVal_pair (a b : Char) :
    digitsVal [a, b] = 10 * charToDigit a + charToDigit b := by
  simp [digitsVal, List.foldl]

theorem digitsVal_quad (a b c d : Char) :
    digitsVal [a, b, c, d] =
      1000 * charToDigit a + 100 * charToDigit b +
        10 * charToDigit c + charToDigit d := by
  simp [digitsVal, List.foldl]
  ring

theorem pad2_digitsVal {a b : Char} (ha : isDigitC a = true)
    (hb : isDigitC b = true) : pad2 (digitsVal [a, b]) = [a, b] := by
  rw [digitsVal_pair]
  have ha9 := charToDigit_le_nine a
  have hb9 := charToDigit_le_nine b
  unfold pad2
  by_cases hlt : 10 * charToDigit a + charToDigit b < 10
  · have ha0 : charToDigit a = 0 := by omega
    rw [if_pos hlt]
    have h1 : (10 * charToDigit a + charToDigit b) = charToDigit b := by omega
    rw [h1, digitChar10_charToDigit hb]
    have h2 : ('0' : Char) = digitChar10 (charToDigit a) := by
      rw [ha0]; rfl
    rw [h2, digitChar10_charToDigit ha]
  · rw [if_neg hlt]
    have h1 : (10 * charToDigit a + charToDigit b) / 10 = charToDigit a := by
      omega
    have h2 : (10 * charToDigit a + charToDigit b) % 10 = charToDigit b := by
      omega
    rw [h1, h2, digitChar10_charToDigit ha, digitChar10_charToDigit hb]

theorem pad4_digitsVal {a b c d : Char} (ha : isDigitC a = true)
    (hb : isDigitC b = true) (hc : isDigitC c = true)
    (hd : isDigitC d = true) :
    pad4 (digitsVal [a, b, c, d]) = [a, b, c, d] := by
  rw [digitsVal_quad]
  have ha9 := charToDigit_le_nine a
  have hb9 := charToDigit_le_nine b
  have hc9 := charToDigit_le_nine c
  have hd9 := charToDigit_le_nine d
  unfold pad4
  have h1 : (1000 * charToDigit a + 100 * charToDigit b +
      10 * charToDigit c + charToDigit d) / 1000 = charToDigit a := by omega
  have h2 : (1000 * charToDigit a + 100 * charToDigit b +
      10 * charToDigit c + charToDigit d) / 100 % 10 = charToDigit b := by
    omega
  have h3 : (1000 * charToDigit a + 100 * charToDigit b +
      10 * charToDigit c + charToDigit d) / 10 % 10 = charToDigit c := by
    omega
  have h4 : (1000 * charToDigit a + 100 * charToDigit b +
      10 * charToDigit c + charToDigit d) % 10 = charToDigit d := by omega
  rw [h1, h2, h3, h4, digitChar10_charToDigit ha, digitChar10_charToDigit hb,
    digitChar10_charToDigit hc, digitChar10_charToDigit hd]

theorem splitOnDot_ne_nil (l : List Char) : splitOnDot l ≠ [] := by
  cases l with
  | nil => simp [splitOnDot]
  | cons c rest =>
    unfold splitOnDot
    split_ifs
    · simp
    · cases h : splitOnDot rest <;> simp

theorem splitOnDot_no_dot {l : List Char} (h : ∀ c ∈ l, ¬ c = '.') :
    splitOnDot l = [l] := by
  induction l with
  | nil => rfl
  | cons c rest ih =>
    unfold splitOnDot
    rw [if_neg (h c (by simp))]
    rw [ih (fun x hx => h x (List.mem_cons_of_mem _ hx))]

theorem splitOnDot_append {xs rest : List Char}
    (h : ∀ c ∈ xs, ¬ c = '.') :
    splitOnDot (xs ++ '.' :: rest) = xs :: splitOnDot rest := by
  induction xs with
  | nil =>
    show splitOnDot ('.' :: rest) = [] :: splitOnDot rest
    rw [splitOnDot]
    rw [if_pos rfl]
  | cons c xs2 ih =>
    show splitOnDot (c :: (xs2 ++ '.' :: rest)) = (c :: xs2) :: splitOnDot rest
    rw [splitOnDot]
    rw [if_neg (h c (by simp))]
    rw [ih (fun x hx => h x (List.mem_cons_of_mem _ hx))]

theorem splitOnDot_eq_one {l a : List Char} (h : splitOnDot l = [a]) :
    l = a ∧ (∀ x ∈ a, ¬ x = '.') := by
  induction l generalizing a with
  | nil =>
    unfold splitOnDot at h
    injection h with h1
    subst h1
    exact ⟨rfl, by simp⟩
  | cons c rest ih =>
    unfold splitOnDot at h
    split_ifs at h with hc
    · injection h with h1 h2
      exact absurd h2 (splitOnDot_ne_nil rest)
    · cases hs : splitOnDot rest with
      | nil => exact absurd hs (splitOnDot_ne_nil rest)
      | cons g gs =>
        rw [hs] at h
        injection h with h1 h2
        subst h2
        obtain ⟨hr, hnd⟩ := ih hs
        subst h1
        constructor
        · rw [hr]
        · intro x hx
          rcases List.mem_cons.mp hx with h3 | h3
          · subst h3; exact hc
          · exact hnd x h3

theorem splitOnDot_eq_two {l a b : List Char} (h : splitOnDot l = [a, b]) :
    l = a ++ '.' :: b ∧ (∀ x ∈ a, ¬ x = '.') ∧ (∀ x ∈ b, ¬ x = '.') := by
  induction l generalizing a b with
  | nil => cases h
  | cons c rest ih =>
    unfold splitOnDot at h
    split_ifs at h with hc
    · subst hc
      injection h with h1 h2
      subst h1
      obtain ⟨hr, hnd⟩ := splitOnDot_eq_one h2
      subst hr
      exact ⟨rfl, by simp, hnd⟩
    · cases hs : splitOnDot rest with
      | nil => exact absurd hs (splitOnDot_ne_nil rest)
      | cons g gs =>
        rw [hs] at h
        injection h with h1 h2
        subst h1
        subst h2
        obtain ⟨hr, hnda, hndb⟩ := ih hs
        subst hr
        refine ⟨rfl, ?_, hndb⟩
        intro x hx
        rcases List.mem_cons.mp hx with h3 | h3
        · subst h3; exact hc
        · exact hnda x h3

theorem splitOnDot_eq_three {l a b c : List Char}
    (h : splitOnDot l = [a, b, c]) :
    l = a ++ '.' :: b ++ '.' :: c ∧ (∀ x ∈ a, ¬ x = '.') ∧
      (∀ x ∈ b, ¬ x = '.') ∧ (∀ x ∈ c, ¬ x = '.') := by
  induction l generalizing a b c with
  | nil => cases h
  | cons ch rest ih =>
    unfold splitOnDot at h
    split_ifs at h with hc
    · subst hc
      injection h with h1 h2
      subst h1
      obtain ⟨hr, hndb, hndc⟩ := splitOnDot_eq_two h2
      subst hr
      exact ⟨rfl, by simp, hndb, hndc⟩
    · cases hs : splitOnDot rest with
      | nil => exact absurd hs (splitOnDot_ne_nil rest)
      | cons g gs =>
        rw [hs] at h
        injection h with h1 h2
        subst h1
        subst h2
        obtain ⟨hr, hnda, hndb, hndc⟩ := ih hs
        subst hr
        refine ⟨rfl, ?_, hndb, hndc⟩
        intro x hx
        rcases List.mem_cons.mp hx with h3 | h3
        · subst h3; exact hc
        · exact hnda x h3

theorem list_length_eq_four {α : Type} {l : List α} (h : l.length = 4) :
    ∃ a b c d, l = [a, b, c, d] := by
  match l, h with
  | [a, b, c, d], _ => exact ⟨a, b, c, d, rfl⟩

theorem allDigits_mem {l : List Char} (h : allDigits l = true) :
    ∀ c ∈ l, isDigitC c = true := by
  intro c hc
  have := List.all_eq_true.mp h c hc
  simpa using this

theorem parseDMY_ok_iff (l : List Char) :
    (∃ d, parseDMY l = .ok d) ↔ flexibleDMY l = true := by
  unfold parseDMY flexibleDMY
  cases hs : splitOnDot l with
  | nil => simp
  | cons a t1 =>
    cases t1 with
    | nil => simp
    | cons b t2 =>
      cases t2 with
      | nil => simp
      | cons c t3 =>
        cases t3 with
        | cons d4 t4 => simp
        | nil =>
          dsimp only
          rw [decide_eq_true_eq]
          constructor
          · rintro ⟨d, hd⟩
            split_ifs at hd with h1 h2
            obtain ⟨p1, p2, p3, p4, p5, p6, p7, p8, p9, p10, p11, p12⟩ := h1
            exact ⟨p1, p2, p3, p6, p7, p8, p11, p12, h2⟩
          · intro hf
            obtain ⟨f1, f2, f3, f4, f5, f6, f7, f8, f9⟩ := hf
            obtain ⟨q1, q2, q3, q4, q5, q6⟩ := isValidDate_mk.mp f9
            have hdim := daysInMonth_le_31 (digitsVal c) (digitsVal b)
            refine ⟨⟨digitsVal c, digitsVal b, digitsVal a⟩, ?_⟩
            rw [if_pos ⟨f1, f2, f3, q5, by omega, f4, f5, f6, q3, q4, f7, f8⟩,
              if_pos f9]

theorem zeroPadded_roundtrip {l : List Char} (hz : zeroPaddedDMY l = true) :
    stripList l = l ∧ ∃ d, parseDMY l = .ok d ∧ (birthdayStr d).data = l := by
  unfold zeroPaddedDMY at hz
  cases hs : splitOnDot l with
  | nil => rw [hs] at hz; cases hz
  | cons a t1 =>
    cases t1 with
    | nil => rw [hs] at hz; cases hz
    | cons b t2 =>
      cases t2 with
      | nil => rw [hs] at hz; cases hz
      | cons c t3 =>
        cases t3 with
        | cons d4 t4 => rw [hs] at hz; cases hz
        | nil =>
          rw [hs] at hz
          dsimp only at hz
          obtain ⟨z1, z2, z3, z4, z5, z6, z7⟩ := decide_eq_true_eq.mp hz
          obtain ⟨hl, hnda, hndb, hndc⟩ := splitOnDot_eq_three hs
          have hmem : ∀ x ∈ l, isDigitC x = true ∨ x = '.' := by
            intro x hx
            rw [hl] at hx
            rcases List.mem_append.mp hx with h1 | h1
            · rcases List.mem_append.mp h1 with h2 | h2
              · exact Or.inl (allDigits_mem z2 x h2)
              · rcases List.mem_cons.mp h2 with h3 | h3
                · exact Or.inr h3
                · exact Or.inl (allDigits_mem z4 x h3)
            · rcases List.mem_cons.mp h1 with h3 | h3
              · exact Or.inr h3
              · exact Or.inl (allDigits_mem z6 x h3)
          have hstrip : stripList l = l := by
            refine stripList_eq_self ?_
            intro ch hch
            rcases hmem ch hch with h1 | h1
            · exact isDigitC_not_space h1
            · rw [h1]; decide
          obtain ⟨q1, q2, q3, q4, q5, q6⟩ := isValidDate_mk.mp z7
          have hdim := daysInMonth_le_31 (digitsVal c) (digitsVal b)
          refine ⟨hstrip, ⟨digitsVal c, digitsVal b, digitsVal a⟩, ?_, ?_⟩
          · unfold parseDMY
            rw [hs]
            dsimp only
            rw [if_pos ⟨by omega, by omega, z2, q5, by omega, by omega,
              by omega, z4, q3, q4, z5, z6⟩, if_pos z7]
          · obtain ⟨a1, a2, ha⟩ := List.length_eq_two.mp z1
            obtain ⟨b1, b2, hb⟩ := List.length_eq_two.mp z3
            obtain ⟨c1, c2, c3, c4, hc⟩ := list_length_eq_four z5
            subst ha hb hc
            unfold birthdayStr
            show pad2 (digitsVal [a1, a2]) ++ '.' ::
              pad2 (digitsVal [b1, b2]) ++ '.' ::
                pad4 (digitsVal [c1, c2, c3, c4]) = l
            rw [pad2_digitsVal (allDigits_mem z2 a1 (by simp))
                  (allDigits_mem z2 a2 (by simp)),
                pad2_digitsVal (allDigits_mem z4 b1 (by simp))
                  (allDigits_mem z4 b2 (by simp)),
                pad4_digitsVal (allDigits_mem z6 c1 (by simp))
                  (allDigits_mem z6 c2 (by simp))
                  (allDigits_mem z6 c3 (by simp))
                  (allDigits_mem z6 c4 (by simp))]
            rw [hl]

/-- C3 (amended): `Birthday(text)` succeeds exactly when the trimmed text
is a valid calendar date in day.month.year order with a 1- or 2-digit day,
a 1- or 2-digit month and a 4-digit year (the `strptime('%d.%m.%Y')`
pattern also accepts unpadded day and month fields); and for every valid
zero-padded `DD.MM.YYYY` string, construction succeeds and rendering the
birthday back reproduces the string exactly. -/
theorem birthday_format_and_roundtrip (s : String) :
    ((∃ d, pyBirthday s = .ok d) ↔
      flexibleDMY (stripList s.data) = true) ∧
    (zeroPaddedDMY s.data = true →
      ∃ d, pyBirthday s = .ok d ∧ birthdayStr d = s) := by
  constructor
  · exact parseDMY_ok_iff (stripList s.data)
  · intro hz
    obtain ⟨hstrip, d, hd, hdata⟩ := zeroPadded_roundtrip hz
    refine ⟨d, ?_, String.ext hdata⟩
    show parseDMY (stripList s.data) = .ok d
    rw [hstrip]
    exact hd

/-- Counterexample to C3 as stated: `"7.3.1990"` is not of the 2-digit-day
`DD.MM.YYYY` form, yet the `Birthday` constructor accepts it, because
`strptime`'s `%d` and `%m` also match single-digit fields. -/
theorem birthday_two_digit_counterexample :
    pyBirthday "7.3.1990" = .ok ⟨1990, 3, 7⟩ ∧
    zeroPaddedDMY "7.3.1990".data = false := by
  constructor
  · rfl
  · decide

/-- Witness for C3 at a concrete zero-padded string: `"17.03.1990"` parses
and renders back to itself. -/
theorem birthday_format_and_roundtrip_witness :
    ∃ d, pyBirthday "17.03.1990" = .ok d ∧ birthdayStr d = "17.03.1990" :=
  (birthday_format_and_roundtrip "17.03.1990").2 (by decide)
